import Mathlib

/-!
# Verification of the `dsfdr` discrete-FDR engine (calour/dsfdr.py)

A shallow embedding of the discrete permutation-based FDR testing engine.
Matrices are lists of rows (features); samples are columns.  NumPy float
arrays are modelled with exact rationals `ℚ` (reals for the `log2` transform),
so floating point rounding is abstracted away; total division (`x / 0 = 0`)
replaces NumPy nan-propagation, and all quantified statements are about
inputs where the source code performs no division by zero.

Randomness is made explicit: the list `perms` of shuffled label vectors is an
input, modelling a fixed outcome of the `np.random.shuffle` /
`np.random.permutation` draws.
-/

namespace Dsfdr

/-! ## Counting helpers (model `np.sum(xs <= c)` and friends) -/

/-- Number of entries of `xs` that are `≤ c` (`np.sum(xs <= c)`). -/
def cntLe (xs : List ℚ) (c : ℚ) : ℕ := (xs.filter (fun y => decide (y ≤ c))).length

/-- Number of entries of `xs` that are `< c`. -/
def cntLt (xs : List ℚ) (c : ℚ) : ℕ := (xs.filter (fun y => decide (y < c))).length

/-- Number of entries of `xs` that are `≥ c` (`np.sum(xs >= c)`). -/
def cntGe (xs : List ℚ) (c : ℚ) : ℕ := (xs.filter (fun y => decide (c ≤ y))).length

/-- Number of entries of `xs` equal to `c` (`np.sum(xs == c)`). -/
def cntEq (xs : List ℚ) (c : ℚ) : ℕ := (xs.filter (fun y => decide (y = c))).length

/-- Number of entries of the whole matrix `u` that are `≤ c`
(`np.count_nonzero(u <= c)`). -/
def cntLeMat (u : List (List ℚ)) (c : ℚ) : ℕ := (u.map (fun r => cntLe r c)).sum

/-! ## Sorting (models `np.sort` / `np.unique` order) -/

/-- Insert into an ascending-sorted list. -/
def insertAsc (x : ℚ) : List ℚ → List ℚ
  | [] => [x]
  | y :: ys => if x ≤ y then x :: y :: ys else y :: insertAsc x ys

/-- Ascending insertion sort. -/
def sortAsc (l : List ℚ) : List ℚ := l.foldr insertAsc []

/-- Insert into a descending-sorted list. -/
def insertDesc (x : ℚ) : List ℚ → List ℚ
  | [] => [x]
  | y :: ys => if y ≤ x then x :: y :: ys else y :: insertDesc x ys

/-- Descending insertion sort. -/
def sortDesc (l : List ℚ) : List ℚ := l.foldr insertDesc []

/-- `np.unique(pvals)` reordered biggest-to-smallest, as done by
`pvals_unique[np.argsort(-pvals_unique)]` in the source: the distinct
observed p-values, sorted descending. -/
def sortp (pvals : List ℚ) : List ℚ := sortDesc pvals.dedup

theorem perm_insertAsc (x : ℚ) (l : List ℚ) : List.Perm (insertAsc x l) (x :: l) := by
  induction l with
  | nil => simp [insertAsc]
  | cons y ys ih =>
    by_cases h : x ≤ y
    · simp [insertAsc, h]
    · simp only [insertAsc, if_neg h]
      exact ((ih.cons y).trans (List.Perm.swap x y ys))

theorem perm_sortAsc (l : List ℚ) : List.Perm (sortAsc l) l := by
  induction l with
  | nil => simp [sortAsc]
  | cons y ys ih => exact (perm_insertAsc y (sortAsc ys)).trans (ih.cons y)

theorem perm_insertDesc (x : ℚ) (l : List ℚ) : List.Perm (insertDesc x l) (x :: l) := by
  induction l with
  | nil => simp [insertDesc]
  | cons y ys ih =>
    by_cases h : y ≤ x
    · simp [insertDesc, h]
    · simp only [insertDesc, if_neg h]
      exact ((ih.cons y).trans (List.Perm.swap x y ys))

theorem perm_sortDesc (l : List ℚ) : List.Perm (sortDesc l) l := by
  induction l with
  | nil => simp [sortDesc]
  | cons y ys ih => exact (perm_insertDesc y (sortDesc ys)).trans (ih.cons y)

theorem sorted_insertAsc (x : ℚ) (l : List ℚ) (h : l.Pairwise (· ≤ ·)) :
    (insertAsc x l).Pairwise (· ≤ ·) := by
  induction l with
  | nil => simp [insertAsc]
  | cons y ys ih =>
    rcases List.pairwise_cons.mp h with ⟨hy, hys⟩
    by_cases hxy : x ≤ y
    · rw [insertAsc, if_pos hxy]
      refine List.pairwise_cons.mpr ⟨?_, h⟩
      intro z hz
      rcases List.mem_cons.mp hz with rfl | hz
      · exact hxy
      · exact le_trans hxy (hy z hz)
    · rw [insertAsc, if_neg hxy]
      refine List.pairwise_cons.mpr ⟨?_, ih hys⟩
      intro z hz
      rcases List.mem_cons.mp ((perm_insertAsc x ys).mem_iff.mp hz) with rfl | hz
      · exact le_of_not_le hxy
      · exact hy z hz

theorem sorted_sortAsc (l : List ℚ) : (sortAsc l).Pairwise (· ≤ ·) := by
  induction l with
  | nil => simp [sortAsc]
  | cons y ys ih => exact sorted_insertAsc y (sortAsc ys) ih

theorem sorted_insertDesc (x : ℚ) (l : List ℚ) (h : l.Pairwise (fun a b => b ≤ a)) :
    (insertDesc x l).Pairwise (fun a b => b ≤ a) := by
  induction l with
  | nil => simp [insertDesc]
  | cons y ys ih =>
    rcases List.pairwise_cons.mp h with ⟨hy, hys⟩
    by_cases hxy : y ≤ x
    · rw [insertDesc, if_pos hxy]
      refine List.pairwise_cons.mpr ⟨?_, h⟩
      intro z hz
      rcases List.mem_cons.mp hz with rfl | hz
      · exact hxy
      · exact le_trans (hy z hz) hxy
    · rw [insertDesc, if_neg hxy]
      refine List.pairwise_cons.mpr ⟨?_, ih hys⟩
      intro z hz
      rcases List.mem_cons.mp ((perm_insertDesc x ys).mem_iff.mp hz) with rfl | hz
      · exact le_of_not_le hxy
      · exact hy z hz

theorem sorted_sortDesc (l : List ℚ) : (sortDesc l).Pairwise (fun a b => b ≤ a) := by
  induction l with
  | nil => simp [sortDesc]
  | cons y ys ih => exact sorted_insertDesc y (sortDesc ys) ih

theorem mem_sortp {a : ℚ} {pvals : List ℚ} : a ∈ sortp pvals ↔ a ∈ pvals := by
  unfold sortp
  rw [(perm_sortDesc pvals.dedup).mem_iff, List.mem_dedup]

/-- On a descending-sorted list, the first element satisfying `P` dominates
every element of the list that satisfies `P`. -/
theorem find?_sorted_desc_max (P : ℚ → Bool) (l : List ℚ) :
    l.Pairwise (fun a b => b ≤ a) → ∀ x : ℚ, l.find? P = some x →
      ∀ y ∈ l, P y = true → y ≤ x := by
  induction l with
  | nil => intro _ x hf; simp [List.find?] at hf
  | cons z zs ih =>
    intro hs x hf y hy hPy
    rcases List.pairwise_cons.mp hs with ⟨hz, hzs⟩
    by_cases hPz : P z = true
    · rw [List.find?_cons_of_pos _ hPz] at hf
      injection hf with hf
      subst hf
      rcases List.mem_cons.mp hy with rfl | hy
      · exact le_rfl
      · exact hz y hy
    · rw [List.find?_cons_of_neg _ (by simpa using hPz)] at hf
      rcases List.mem_cons.mp hy with rfl | hy
      · exact absurd hPy hPz
      · exact ih hzs x hf y hy hPy

/-! ## The discrete-FDR threshold search (dsfdr.py lines 394-421) -/

/-- The FDR estimate computed inside the candidate loop:
`fdr = (realnum + np.count_nonzero(pvals_u <= cp)) / (realnum * (numperm + 1))`
with `realnum = np.sum(pvals <= cp)`. -/
def fdrEst (pvals : List ℚ) (pvals_u : List (List ℚ)) (numperm : ℕ) (cp : ℚ) : ℚ :=
  ((cntLe pvals cp : ℚ) + (cntLeMat pvals_u cp : ℚ)) /
    ((cntLe pvals cp : ℚ) * ((numperm : ℚ) + 1))

/-- The candidate loop `for cp in sortp: ... if fdr <= alpha: realcp = cp; break`:
the first (largest) unique observed p-value whose FDR estimate is `≤ alpha`,
or `none` when the loop exhausts all candidates (`foundit = False`). -/
def dsfdrThreshold (pvals : List ℚ) (pvals_u : List (List ℚ)) (numperm : ℕ)
    (alpha : ℚ) : Option ℚ :=
  (sortp pvals).find? (fun cp => decide (fdrEst pvals pvals_u numperm cp ≤ alpha))

/-- The rejection vector of the `fdr_method == 'dsfdr'` branch:
`reject = (pvals <= realcp)` when a threshold was accepted, and
`reject = np.repeat([False], numbact)` when `foundit` stayed `False`. -/
def dsfdrReject (pvals : List ℚ) (pvals_u : List (List ℚ)) (numperm : ℕ)
    (alpha : ℚ) : List Bool :=
  match dsfdrThreshold pvals pvals_u numperm alpha with
  | some realcp => pvals.map (fun p => decide (p ≤ realcp))
  | none => List.replicate pvals.length false

theorem cntLe_pos_of_mem {pvals : List ℚ} {cp : ℚ} (h : cp ∈ pvals) :
    0 < cntLe pvals cp := by
  unfold cntLe
  have : cp ∈ pvals.filter (fun y => decide (y ≤ cp)) :=
    List.mem_filter.mpr ⟨h, by simp⟩
  exact List.length_pos.mpr (List.ne_nil_of_mem this)

/-! ## Empirical p-values by pooled min-ranking (dsfdr.py lines 381-391) -/

/-- `sp.stats.rankdata(xs, method='min')`: rank each entry by its first
position (1-based) in the ascending sort of the list, so ties share the
smallest rank. -/
def rankdataMin (xs : List ℚ) : List ℕ :=
  xs.map (fun x => ((sortAsc xs).takeWhile (fun y => decide (y < x))).length + 1)

/-- The per-feature p-value computation: pool the observed statistic
(first) with the permuted statistics, min-rank the pool, and map rank `r`
to `1 - (r - 1)/len(pool)`.  Entry 0 is the observed statistic's p-value
(`pvals[crow]`), the tail is `pvals_u[crow, :]`. -/
def pvalsRow (tc : ℚ) (urow : List ℚ) : List ℚ :=
  (rankdataMin (tc :: urow)).map
    (fun r : ℕ => 1 - (((r : ℚ) - 1) / (((tc :: urow).length : ℕ) : ℚ)))

/-- On an ascending-sorted list, counting by `takeWhile (· < c)` agrees with
filtering. -/
theorem takeWhile_lt_length_of_sorted (c : ℚ) :
    ∀ l : List ℚ, l.Pairwise (· ≤ ·) →
      (l.takeWhile (fun y => decide (y < c))).length =
        (l.filter (fun y => decide (y < c))).length := by
  intro l
  induction l with
  | nil => intro _; rfl
  | cons z zs ih =>
    intro hs
    rcases List.pairwise_cons.mp hs with ⟨hz, hzs⟩
    by_cases hzc : z < c
    · rw [List.takeWhile_cons_of_pos (by simpa using hzc),
        List.filter_cons_of_pos (by simpa using hzc)]
      simp [ih hzs]
    · rw [List.takeWhile_cons_of_neg (by simpa using hzc),
        List.filter_cons_of_neg (by simpa using hzc)]
      have : zs.filter (fun y => decide (y < c)) = [] := by
        rw [List.filter_eq_nil_iff]
        intro a ha
        simp only [decide_eq_true_eq]
        exact fun hac => hzc (lt_of_le_of_lt (hz a ha) hac)
      simp [this]

/-- The min-rank of `x` within `xs` is one more than the number of entries
strictly below `x`. -/
theorem rankMin_eq_cntLt (xs : List ℚ) (x : ℚ) :
    ((sortAsc xs).takeWhile (fun y => decide (y < x))).length + 1 = cntLt xs x + 1 := by
  rw [takeWhile_lt_length_of_sorted x (sortAsc xs) (sorted_sortAsc xs)]
  unfold cntLt
  have := (perm_sortAsc xs).filter (fun y => decide (y < x))
  rw [this.length_eq]

theorem pvalsRow_length (tc : ℚ) (urow : List ℚ) :
    (pvalsRow tc urow).length = urow.length + 1 := by
  simp [pvalsRow, rankdataMin]

theorem pvalsRow_head (tc : ℚ) (urow : List ℚ) :
    (pvalsRow tc urow).headD 0 =
      1 - ((cntLt (tc :: urow) tc : ℚ)) / ((urow.length : ℚ) + 1) := by
  have hr : rankdataMin (tc :: urow) =
      (cntLt (tc :: urow) tc + 1) ::
        (urow.map (fun x =>
          ((sortAsc (tc :: urow)).takeWhile (fun y => decide (y < x))).length + 1)) := by
    unfold rankdataMin
    rw [List.map_cons, rankMin_eq_cntLt (tc :: urow) tc]
  unfold pvalsRow
  rw [hr]
  simp only [List.map_cons, List.headD_cons, List.length_cons]
  push_cast
  ring

/-! ## Data transformations (dsfdr.py lines 16-41)

Each transform is modelled as a pair `(returned value, state of the caller's
array after the call)`, because two of them assign into the argument in
place (`data[data < 2] = 2`, `data[data != 0] = 1`) while the other two only
build fresh arrays. -/

/-- Row dimensions of a matrix (`np.shape` information, per row). -/
def dims {α : Type} (m : List (List α)) : List ℕ := m.map List.length

/-- `sp.stats.rankdata(xs)` with the default `average` method: ties get the
midrank. -/
def scipyRankdataAvg (xs : List ℚ) : List ℚ :=
  xs.map (fun x => (cntLt xs x : ℚ) + ((cntEq xs x : ℚ) + 1) / 2)

/-- A NumPy array of dynamic rank: 1-D or 2-D.  The module-level `rankdata`
is called both on 2-D matrices (the transform stage) and — by mistake — on
the 1-D concatenation inside `mannwhitneyU`, so its argument's shape must be
part of the model. -/
inductive NPArr : Type where
  | one : List ℚ → NPArr
  | two : List (List ℚ) → NPArr
deriving DecidableEq

/-- The module-level `rankdata` (dsfdr.py lines 17-22): allocates `rdata`,
then executes `rdata[crow, :] = sp.stats.rankdata(data[crow, :])` for each
`crow in range(np.shape(data)[0])`.  On a 2-D input this ranks every row; on
a 1-D input of positive length the very first loop iteration indexes a 1-D
array with two indices and raises `IndexError` (on an empty 1-D input the
loop body never runs).  Returns `(result, state of the argument)`: the input
array is never written to. -/
def rankdata : NPArr → Except String (NPArr × NPArr)
  | NPArr.one xs =>
    if xs.length = 0 then Except.ok (NPArr.one [], NPArr.one xs)
    else Except.error "IndexError: too many indices for array"
  | NPArr.two m => Except.ok (NPArr.two (m.map scipyRankdataAvg), NPArr.two m)

/-- `binarydata` (dsfdr.py lines 32-35): `data[data != 0] = 1; return data`.
The assignment is in place and the very same array is returned, so the
caller's array ends up binarized. -/
def binarydata (m : List (List ℚ)) : List (List ℚ) × List (List ℚ) :=
  let b := m.map (fun row => row.map (fun x => if x ≠ 0 then 1 else x))
  (b, b)

/-- `np.sum(data, axis=0)`: per-column sums. -/
def columnSums (m : List (List ℚ)) : List ℚ :=
  (List.range (m.headD []).length).map (fun j => (m.map (fun row => row.getD j 0)).sum)

/-- `normdata` (dsfdr.py lines 38-41): `data = data / np.sum(data, axis=0)`
builds a fresh array (the local name is rebound), so the caller's array is
untouched. -/
def normdata (m : List (List ℚ)) : List (List ℚ) × List (List ℚ) :=
  (m.map (fun row => List.zipWith (fun x s => x / s) row (columnSums m)), m)

/-- `log2data` (dsfdr.py lines 25-29): `data[data < 2] = 2` writes the clip
into the caller's array in place, then `data = np.log2(data)` rebinds the
local name to a fresh log-transformed array.  The caller's array is left
clipped-at-2 but NOT log-transformed. -/
noncomputable def log2data (m : List (List ℝ)) : List (List ℝ) × List (List ℝ) :=
  let clipped := m.map (fun row => row.map (fun x => if x < 2 then 2 else x))
  (clipped.map (fun row => row.map (fun x => Real.logb 2 x)), clipped)

/-! ## Test statistics (dsfdr.py lines 44-79) -/

/-- `row[labels == v]`: the entries of `row` at sample positions whose label
equals `v`. -/
def selCols (row : List ℚ) (labels : List ℚ) (v : ℚ) : List ℚ :=
  (row.zip labels).filterMap (fun p => if p.2 = v then some p.1 else none)

/-- `np.mean`, with the ℚ-convention `sum / 0 = 0` for the empty list (NumPy
would produce `nan`; every claim below constrains both groups non-empty). -/
def mean (xs : List ℚ) : ℚ := xs.sum / (xs.length : ℚ)

/-- `meandiff` (dsfdr.py lines 45-49): per feature,
`mean(data[:, labels == 1]) - mean(data[:, labels == 0])`. -/
def meandiff (data : List (List ℚ)) (labels : List ℚ) : List ℚ :=
  data.map (fun row => mean (selCols row labels 1) - mean (selCols row labels 0))

/-- `mannwhitneyU` (dsfdr.py lines 62-71).  It calls the module-level
`rankdata` — not `sp.stats.rankdata` — on the 1-D array
`np.concatenate((x, y))`, so the call raises `IndexError` whenever the
pooled sample is non-empty; the U-statistic arithmetic below the call is
unreachable then. -/
def mannwhitneyU (x y : List ℚ) : Except String ℚ := do
  let n1 := x.length
  let n2 := y.length
  let rk ← rankdata (NPArr.one (x ++ y))
  match rk.1 with
  | NPArr.one ranked =>
    let rankx := ranked.take n1
    let ux : ℚ := (n1 : ℚ) * (n2 : ℚ) + ((n1 : ℚ) * ((n1 : ℚ) + 1)) / 2 - rankx.sum
    let uy : ℚ := (n1 : ℚ) * (n2 : ℚ) - ux
    Except.ok (min ux uy)
  | NPArr.two _ => Except.error "unexpected shape"

/-- `mannwhitney` (dsfdr.py lines 74-79): split each feature row into the
two label groups and compute `mannwhitneyU` per row. -/
def mannwhitney (data : List (List ℚ)) (labels : List ℚ) : Except String (List ℚ) :=
  data.mapM (fun row => mannwhitneyU (selCols row labels 0) (selCols row labels 1))

/-! ## The meandiff permutation trick (dsfdr.py lines 289-305) -/

/-- Dot product of two equal-length vectors (one entry of `np.dot`). -/
def dot (xs ys : List ℚ) : ℚ := (List.zipWith (· * ·) xs ys).sum

/-- One column of the weighting matrix `p`: after `np.random.shuffle` the
loop does `p[labels == 0, cperm] = k1`, so the column holds `k1` at samples
whose shuffled label is 0 and the initialised 0 elsewhere. -/
def pcol (r : List ℚ) (k1 : ℚ) : List ℚ :=
  r.map (fun l => if l = 0 then k1 else 0)

/-- One column of `p2 = np.ones(p.shape) * k2; p2[p > 0] = 0`: `k2` where
the `p`-entry is not positive, 0 where it is. -/
def p2col (pc : List ℚ) (k2 : ℚ) : List ℚ :=
  pc.map (fun v => if 0 < v then 0 else k2)

/-- The permutation-null matrix `u = np.abs(np.dot(data, p) - np.dot(data, p2))`
of the meandiff branch, stored feature-major: entry `(i, cperm)` is the
`i`-th feature's value for the `cperm`-th shuffled label vector.
`k1 = 1 / np.sum(labels == 0)` and `k2 = 1 / np.sum(labels == 1)` come from
the caller's (unshuffled) label vector. -/
def meandiffUmat (data : List (List ℚ)) (labels : List ℚ)
    (perms : List (List ℚ)) : List (List ℚ) :=
  data.map (fun row => perms.map (fun r =>
    |dot row (pcol r (1 / (cntEq labels 0 : ℚ))) -
      dot row (p2col (pcol r (1 / (cntEq labels 0 : ℚ)))
        (1 / (cntEq labels 1 : ℚ)))|))

/-! ## filterBH pre-filter (dsfdr.py lines 249-264) -/

/-- The keep-condition of the `filterBH` loop: a feature is appended to
`index` either because its nonzero count reaches `min(n0, n1)`, or because
its minimum achievable p-value
`(comb(n0, k) + comb(n1, k)) / comb(n0 + n1, k)` is `≤ alpha`. -/
def keepFeature (n0 n1 : ℕ) (alpha : ℚ) (row : List ℚ) : Bool :=
  let nonzeros := (row.filter (fun x => decide (x ≠ 0))).length
  if nonzeros < min n0 n1 then
    decide ((((n0.choose nonzeros : ℚ) + (n1.choose nonzeros : ℚ)) /
      ((n0 + n1).choose nonzeros : ℚ)) ≤ alpha)
  else true

/-- `data = data[index, :]`: retain exactly the rows passing `keepFeature`,
where `n0 = np.sum(labels == 0)` and `n1 = np.sum(labels == 1)`. -/
def filterBHrows (data : List (List ℚ)) (labels : List ℚ) (alpha : ℚ) :
    List (List ℚ) :=
  data.filter (keepFeature (cntEq labels 0) (cntEq labels 1) alpha)

/-! ## Numerical-stability snap and the p-value stage (dsfdr.py lines 375-391) -/

/-- The `np.isclose` fix (lines 377-379): permuted values within the default
`np.isclose` tolerance (`rtol = 1e-5`, `atol = 1e-8`) of the observed
statistic are snapped exactly to it.  `np.isclose(a, b)` tests
`|a - b| <= atol + rtol * |b|` with `a = t[crow]`, `b` the permuted value. -/
def fixClose (tc : ℚ) (urow : List ℚ) : List ℚ :=
  urow.map (fun x =>
    if |tc - x| ≤ 1 / 100000000 + (1 / 100000) * |x| then tc else x)

/-- `t = np.abs(tstat)`. -/
def pipeT (tstat : List ℚ) : List ℚ := tstat.map (fun x => |x|)

/-- The permutation matrix after the in-place `isclose` snap, row by row. -/
def pipeU2 (t : List ℚ) (u : List (List ℚ)) : List (List ℚ) :=
  List.zipWith fixClose t u

/-- `pvals` (line 390): per feature, entry 0 of the pooled-and-ranked row. -/
def pipePvals (t : List ℚ) (u2 : List (List ℚ)) : List ℚ :=
  List.zipWith (fun tc ur => (pvalsRow tc ur).headD 0) t u2

/-- `pvals_u` (line 391): per feature, the tail of the pooled-and-ranked row. -/
def pipePvalsU (t : List ℚ) (u2 : List (List ℚ)) : List (List ℚ) :=
  List.zipWith (fun tc ur => (pvalsRow tc ur).tail) t u2

/-! ## Benjamini-Hochberg / Benjamini-Yekutieli (external `multipletests`)

`statsmodels.multipletests` is an external library, modelled here by the
textbook step-up procedures the spec names.  Only its output length (one
boolean per input p-value) is used by the claims below. -/

/-- `multipletests(pvals, alpha, method='fdr_bh')[0]`: reject all p-values
at or below the largest sorted p-value `p_(k)` with `p_(k) ≤ alpha·k/m`. -/
def multipletests_fdr_bh (pvals : List ℚ) (alpha : ℚ) : List Bool :=
  let m := pvals.length
  let sorted := sortAsc pvals
  let accepted := (List.range m).filterMap (fun k =>
    if sorted.getD k 1 ≤ alpha * ((k : ℚ) + 1) / (m : ℚ) then some (sorted.getD k 1)
    else none)
  pvals.map (fun p =>
    match accepted.getLast? with
    | some thr => decide (p ≤ thr)
    | none => false)

/-- `multipletests(pvals, alpha, method='fdr_by')[0]`: BH at level
`alpha / (1 + 1/2 + ... + 1/m)`. -/
def multipletests_fdr_by (pvals : List ℚ) (alpha : ℚ) : List Bool :=
  let c := ((List.range pvals.length).map (fun i => 1 / ((i : ℚ) + 1))).sum
  multipletests_fdr_bh pvals (alpha / c)

/-! ## The top-level `dsfdr` (dsfdr.py lines 188-436) -/

/-- Result of a `dsfdr` call that did not raise: the normal
`(reject, tstat, pvals)` triple, or the `return None, None` sentinel of the
unsupported-statistic-method branch (lines 371-373). -/
inductive DsfdrResult : Type where
  | ok (reject : List Bool) (tstat : List ℚ) (pvals : List ℚ) : DsfdrResult
  | sentinelNone : DsfdrResult
deriving DecidableEq

/-- The transform dispatch (dsfdr.py lines 266-278).  The `log2data` branch
is the one transform that cannot live in the rational embedding (base-2
logarithms are irrational); no claim exercises it through the pipeline, so
it is mapped to a distinguished error.  The final `else` is the
`raise ValueError('transform type %s not supported')`. -/
def transformStage (transform_type : Option String) (d : List (List ℚ)) :
    Except String (List (List ℚ)) :=
  match transform_type with
  | some s =>
    if s = "rankdata" then
      match rankdata (NPArr.two d) with
      | Except.ok (NPArr.two m, _) => Except.ok m
      | Except.ok _ => Except.error "unexpected shape"
      | Except.error e => Except.error e
    else if s = "log2data" then
      Except.error "log2data transform not modelled in the rational embedding"
    else if s = "binarydata" then Except.ok (binarydata d).1
    else if s = "normdata" then Except.ok (normdata d).1
    else Except.error ("transform type " ++ s ++ " not supported")
  | none => Except.ok d

/-- The recomputed p-values of the `bhfdr` / `byfdr` / `filterBH` branches
(dsfdr.py lines 424-425, 429-430):
`pvals = (np.sum(u >= t_star, axis=1) + 1) / (numperm + 1)`, where `u` is the
null matrix after the in-place `isclose` snap. -/
def bhPvals (t : List ℚ) (u2 : List (List ℚ)) (numperm : ℕ) : List ℚ :=
  List.zipWith (fun tc ur => ((cntGe ur tc : ℚ) + 1) / ((numperm : ℚ) + 1)) t u2

/-- The shared tail of the pipeline, from `t = np.abs(tstat)` through the
FDR dispatch (dsfdr.py lines 375-436), given the observed statistic vector
and the (feature-major) permutation-null matrix. -/
def finishPerm (fdr_method : String) (alpha : ℚ) (numperm : ℕ)
    (tstat : List ℚ) (u : List (List ℚ)) : Except String DsfdrResult :=
  let t := pipeT tstat
  let u2 := pipeU2 t u
  if fdr_method = "dsfdr" then
    Except.ok (DsfdrResult.ok
      (dsfdrReject (pipePvals t u2) (pipePvalsU t u2) numperm alpha)
      tstat (pipePvals t u2))
  else if fdr_method = "bhfdr" ∨ fdr_method = "filterBH" then
    Except.ok (DsfdrResult.ok (multipletests_fdr_bh (bhPvals t u2 numperm) alpha)
      tstat (bhPvals t u2 numperm))
  else if fdr_method = "byfdr" then
    Except.ok (DsfdrResult.ok (multipletests_fdr_by (bhPvals t u2 numperm) alpha)
      tstat (bhPvals t u2 numperm))
  else Except.error ("fdr method " ++ fdr_method ++ " not supported")

/-- Transpose the per-permutation statistic columns into the feature-major
null matrix `u` (`u[:, cperm] = rt` in the explicit permutation loop). -/
def transposeCols (numbact : ℕ) (cols : List (List ℚ)) : List (List ℚ) :=
  (List.range numbact).map (fun i => cols.map (fun c => c.getD i 0))

/-- The `dsfdr` procedure (dsfdr.py lines 188-436), with the random draws
made explicit: `perms` is the list of shuffled label vectors produced by the
permutation loop, so `numperm = perms.length`.  The statistic dispatch
models the two methods the claims exercise (`meandiff` with its
matrix-multiplication trick, and `mannwhitney` with the explicit loop); the
remaining recognized string methods are mapped to a distinguished error, and
an unrecognized string hits the sentinel `return None, None` branch.  The
flow mirrors the source: filterBH row filter (only for
`fdr_method == 'filterBH'`), then transform dispatch, then statistic +
permutations, then the p-value stage and FDR dispatch. -/
def dsfdr (data : List (List ℚ)) (labels : List ℚ)
    (transform_type : Option String) (method : String) (alpha : ℚ)
    (perms : List (List ℚ)) (fdr_method : String) :
    Except String DsfdrResult :=
  let data0 := if fdr_method = "filterBH" then filterBHrows data labels alpha else data
  match transformStage transform_type data0 with
  | Except.error e => Except.error e
  | Except.ok data1 =>
    if method = "meandiff" then
      finishPerm fdr_method alpha perms.length
        (meandiff data1 labels) (meandiffUmat data1 labels perms)
    else if method = "mannwhitney" then
      match mannwhitney data1 labels with
      | Except.error e => Except.error e
      | Except.ok tstat =>
        match perms.mapM (fun r => mannwhitney data1 r) with
        | Except.error e => Except.error e
        | Except.ok cols =>
          finishPerm fdr_method alpha perms.length tstat
            (transposeCols data1.length cols)
    else if method = "kruwallis" ∨ method = "stdmeandiff" ∨ method = "spearman" ∨
        method = "pearson" ∨ method = "nonzerospearman" ∨
        method = "nonzeropearson" then
      Except.error ("method " ++ method ++ " not modelled in this embedding")
    else Except.ok DsfdrResult.sentinelNone

/-! ## Characterization of the threshold search -/

theorem dsfdrThreshold_mem {pvals : List ℚ} {pvals_u : List (List ℚ)}
    {numperm : ℕ} {alpha cp : ℚ}
    (h : dsfdrThreshold pvals pvals_u numperm alpha = some cp) : cp ∈ pvals :=
  mem_sortp.mp (List.mem_of_find?_eq_some h)

theorem dsfdrThreshold_est_le {pvals : List ℚ} {pvals_u : List (List ℚ)}
    {numperm : ℕ} {alpha cp : ℚ}
    (h : dsfdrThreshold pvals pvals_u numperm alpha = some cp) :
    fdrEst pvals pvals_u numperm cp ≤ alpha := by
  have := List.find?_some h
  simpa using this

theorem dsfdrThreshold_max {pvals : List ℚ} {pvals_u : List (List ℚ)}
    {numperm : ℕ} {alpha cp : ℚ}
    (h : dsfdrThreshold pvals pvals_u numperm alpha = some cp) :
    ∀ q ∈ pvals, fdrEst pvals pvals_u numperm q ≤ alpha → q ≤ cp := by
  intro q hq hqa
  refine find?_sorted_desc_max _ (sortp pvals) ?_ cp h q (mem_sortp.mpr hq) (by simpa)
  exact sorted_sortDesc pvals.dedup

theorem dsfdrThreshold_none {pvals : List ℚ} {pvals_u : List (List ℚ)}
    {numperm : ℕ} {alpha : ℚ}
    (h : dsfdrThreshold pvals pvals_u numperm alpha = none) :
    ∀ q ∈ pvals, ¬ fdrEst pvals pvals_u numperm q ≤ alpha := by
  intro q hq
  have := List.find?_eq_none.mp h q (mem_sortp.mpr hq)
  simpa using this

theorem getD_replicate_false (n i : ℕ) :
    (List.replicate n false).getD i false = false := by
  induction n generalizing i with
  | zero => cases i <;> rfl
  | succ k ih =>
    cases i with
    | zero => rfl
    | succ j => simp [List.replicate, ih j]

theorem getD_map_decide_true {l : List ℚ} {f : ℚ → Bool} {i : ℕ}
    (h : (l.map f).getD i false = true) :
    i < l.length ∧ f (l.getD i 0) = true := by
  induction l generalizing i with
  | nil => simp [List.getD] at h
  | cons x xs ih =>
    cases i with
    | zero => exact ⟨Nat.succ_pos _, h⟩
    | succ j =>
      obtain ⟨hj, hfj⟩ := ih (by simpa using h)
      exact ⟨Nat.succ_lt_succ hj, hfj⟩

theorem getD_map_false {α : Type} (l : List α) (f : α → Bool) (d : α) (i : ℕ)
    (hi : i < l.length) : (l.map f).getD i false = f (l.getD i d) := by
  induction l generalizing i with
  | nil => simp at hi
  | cons x xs ih =>
    cases i with
    | zero => rfl
    | succ j => exact ih j (by simpa using hi)

/-! ## Length bookkeeping through the pipeline -/

theorem meandiff_length (data : List (List ℚ)) (labels : List ℚ) :
    (meandiff data labels).length = data.length := by
  simp [meandiff]

theorem pipePvals_pipeline_length (data : List (List ℚ)) (labels : List ℚ)
    (perms : List (List ℚ)) :
    (pipePvals (pipeT (meandiff data labels))
      (pipeU2 (pipeT (meandiff data labels)) (meandiffUmat data labels perms))).length
      = data.length := by
  simp [pipePvals, pipeU2, pipeT, meandiff, meandiffUmat]

theorem bhPvals_pipeline_length (data : List (List ℚ)) (labels : List ℚ)
    (perms : List (List ℚ)) (numperm : ℕ) :
    (bhPvals (pipeT (meandiff data labels))
      (pipeU2 (pipeT (meandiff data labels)) (meandiffUmat data labels perms))
      numperm).length = data.length := by
  simp [bhPvals, pipeU2, pipeT, meandiff, meandiffUmat]

theorem multipletests_fdr_bh_length (p : List ℚ) (a : ℚ) :
    (multipletests_fdr_bh p a).length = p.length := by
  simp [multipletests_fdr_bh]

/-! ## The meandiff trick versus the naive recomputation -/

/-- `np.dot(row, p[:, c])` picks out `k` times the sum of the samples whose
shuffled label is 0. -/
theorem dot_pcol (row : List ℚ) : ∀ (r : List ℚ) (k : ℚ),
    dot row (pcol r k) = k * (selCols row r 0).sum := by
  induction row with
  | nil => intro r k; cases r <;> simp [dot, pcol, selCols]
  | cons x xs ih =>
    intro r k
    cases r with
    | nil => simp [dot, pcol, selCols]
    | cons l ls =>
      have hx := ih ls k
      simp only [dot, pcol, selCols] at hx ⊢
      by_cases hl : l = 0
      · simp [hl, hx]
        ring
      · simp [hl, hx]

/-- `np.dot(row, p2[:, c])` picks out `k2` times the sum of the samples whose
shuffled label is 1, provided `k1 > 0` (so `p > 0` marks exactly the label-0
samples) and the shuffled labels are binary. -/
theorem dot_p2col (row : List ℚ) : ∀ (r : List ℚ) (k1 k2 : ℚ), 0 < k1 →
    (∀ l ∈ r, l = 0 ∨ l = 1) →
    dot row (p2col (pcol r k1) k2) = k2 * (selCols row r 1).sum := by
  induction row with
  | nil => intro r k1 k2 _ _; cases r <;> simp [dot, pcol, p2col, selCols]
  | cons x xs ih =>
    intro r k1 k2 hk1 hbin
    cases r with
    | nil => simp [dot, pcol, p2col, selCols]
    | cons l ls =>
      have hbin_tail : ∀ a ∈ ls, a = 0 ∨ a = 1 :=
        fun a ha => hbin a (List.mem_cons_of_mem l ha)
      have htail := ih ls k1 k2 hk1 hbin_tail
      simp only [dot, pcol, p2col, selCols, List.map_map] at htail ⊢
      by_cases hl : l = 0
      · simp only [List.map_cons, List.zip_cons_cons, List.zipWith_cons_cons,
          List.sum_cons, List.filterMap_cons, Function.comp, hl]
        rw [if_pos trivial, if_pos hk1]
        norm_num
        rw [htail]
      · have hl1 : l = 1 := (hbin l (List.mem_cons_self l ls)).resolve_left hl
        simp only [List.map_cons, List.zip_cons_cons, List.zipWith_cons_cons,
          List.sum_cons, List.filterMap_cons, Function.comp, hl1]
        norm_num
        rw [htail]
        ring

/-- Selecting by a label value picks as many samples as the label count,
when the row covers every sample. -/
theorem selCols_length (v : ℚ) : ∀ (row r : List ℚ), row.length = r.length →
    (selCols row r v).length = cntEq r v := by
  intro row
  induction row with
  | nil =>
    intro r h
    cases r with
    | nil => rfl
    | cons l ls => simp at h
  | cons x xs ih =>
    intro r h
    cases r with
    | nil => simp at h
    | cons l ls =>
      have h2 : xs.length = ls.length := by simpa using h
      have ihh := ih ls h2
      simp only [selCols, cntEq] at ihh ⊢
      by_cases hl : l = v
      · simp [hl, ihh]
      · simp [hl, ihh]

/-- Indexing through `List.map`. -/
theorem getD_map_of_lt {α β : Type} (l : List α) (f : α → β) (d : β) (d0 : α)
    (i : ℕ) (hi : i < l.length) : (l.map f).getD i d = f (l.getD i d0) := by
  induction l generalizing i with
  | nil => simp at hi
  | cons x xs ih =>
    cases i with
    | zero => rfl
    | succ j => exact ih j (by simpa using hi)

section WitnessEvaluation

/- Batteries marks the `Rat` field operations `@[irreducible]`, which blocks
kernel evaluation of concrete rational arithmetic in the witnesses below;
restore the default reducibility locally so `decide` can run the
definitions on concrete inputs. -/
set_option allowUnsafeReducibility true
attribute [local semireducible] Rat.mul Rat.inv Rat.add Rat.sub

/-! ## Claim theorems -/

/-- C1: with `fdr_method='dsfdr'`, for every p-value vector, pseudo-p-value
matrix and permutation count (i.e. any input matrix, labels and fixed
permutation outcome), whenever some observed p-value has FDR estimate
`(count of observed p-values ≤ cp + count of permuted pseudo-p-values ≤ cp)
/ (count of observed p-values ≤ cp · (numperm+1))` at most `alpha`, the
search iterating over the unique observed p-values from largest to smallest
accepts exactly the largest such observed p-value `cp`, and the rejection
vector marks exactly the features with observed p-value `≤ cp`. -/
theorem claim_C1_threshold_search (pvals : List ℚ) (pvals_u : List (List ℚ))
    (numperm : ℕ) (alpha : ℚ)
    (h : ∃ q ∈ pvals, fdrEst pvals pvals_u numperm q ≤ alpha) :
    ∃ cp, dsfdrThreshold pvals pvals_u numperm alpha = some cp ∧
      cp ∈ pvals ∧ fdrEst pvals pvals_u numperm cp ≤ alpha ∧
      (∀ q ∈ pvals, fdrEst pvals pvals_u numperm q ≤ alpha → q ≤ cp) ∧
      dsfdrReject pvals pvals_u numperm alpha =
        pvals.map (fun p => decide (p ≤ cp)) := by
  obtain ⟨q, hq, hqa⟩ := h
  cases hfind : dsfdrThreshold pvals pvals_u numperm alpha with
  | none => exact absurd hqa (dsfdrThreshold_none hfind q hq)
  | some cp =>
    refine ⟨cp, rfl, dsfdrThreshold_mem hfind, dsfdrThreshold_est_le hfind,
      dsfdrThreshold_max hfind, ?_⟩
    unfold dsfdrReject
    rw [hfind]

/-- Witness for C1 at a concrete input: one feature with p-value 1/2, one
permutation with pseudo-p-value 1, `alpha = 1/2`. -/
theorem claim_C1_threshold_search_witness :
    (∃ q ∈ [(1 : ℚ)/2], fdrEst [(1 : ℚ)/2] [[1]] 1 q ≤ 1/2) ∧
    (∃ cp, dsfdrThreshold [(1 : ℚ)/2] [[1]] 1 (1/2) = some cp ∧
      cp ∈ [(1 : ℚ)/2] ∧ fdrEst [(1 : ℚ)/2] [[1]] 1 cp ≤ 1/2 ∧
      (∀ q ∈ [(1 : ℚ)/2], fdrEst [(1 : ℚ)/2] [[1]] 1 q ≤ 1/2 → q ≤ cp) ∧
      dsfdrReject [(1 : ℚ)/2] [[1]] 1 (1/2) =
        [(1 : ℚ)/2].map (fun p => decide (p ≤ cp))) :=
  ⟨⟨1/2, by decide, by decide⟩,
    claim_C1_threshold_search [(1 : ℚ)/2] [[1]] 1 (1/2) ⟨1/2, by decide, by decide⟩⟩

/-- C10: every candidate threshold `cp` of the dsfdr search is itself one of
the observed p-values, so `realnum = np.sum(pvals <= cp)` is at least 1 and
the denominator `realnum * (numperm + 1)` of the FDR estimate is positive. -/
theorem claim_C10_denominator_positive (pvals : List ℚ) (numperm : ℕ) (cp : ℚ)
    (h : cp ∈ sortp pvals) :
    cp ∈ pvals ∧ 1 ≤ cntLe pvals cp ∧ 0 < cntLe pvals cp * (numperm + 1) := by
  have hmem : cp ∈ pvals := mem_sortp.mp h
  have hpos : 0 < cntLe pvals cp := cntLe_pos_of_mem hmem
  exact ⟨hmem, hpos, Nat.mul_pos hpos (Nat.succ_pos numperm)⟩

/-- Witness for C10 at a concrete input. -/
theorem claim_C10_denominator_positive_witness :
    (1 : ℚ)/2 ∈ sortp [(1 : ℚ)/2, 1/2, 1] ∧
    ((1 : ℚ)/2 ∈ [(1 : ℚ)/2, 1/2, 1] ∧ 1 ≤ cntLe [(1 : ℚ)/2, 1/2, 1] (1/2) ∧
      0 < cntLe [(1 : ℚ)/2, 1/2, 1] (1/2) * (3 + 1)) :=
  ⟨by decide, claim_C10_denominator_positive [(1 : ℚ)/2, 1/2, 1] 3 (1/2) (by decide)⟩

/-- C8: for a fixed p-value vector and pseudo-p-value matrix (same inputs
and same permutation draws), if `alpha1 ≤ alpha2` then every feature
rejected by the dsfdr search at `alpha1` is also rejected at `alpha2`. -/
theorem claim_C8_alpha_monotone (pvals : List ℚ) (pvals_u : List (List ℚ))
    (numperm : ℕ) (alpha1 alpha2 : ℚ) (h12 : alpha1 ≤ alpha2) (i : ℕ)
    (h : (dsfdrReject pvals pvals_u numperm alpha1).getD i false = true) :
    (dsfdrReject pvals pvals_u numperm alpha2).getD i false = true := by
  unfold dsfdrReject at h ⊢
  cases hf1 : dsfdrThreshold pvals pvals_u numperm alpha1 with
  | none =>
    rw [hf1, getD_replicate_false] at h
    exact absurd h (by simp)
  | some cp1 =>
    rw [hf1] at h
    obtain ⟨hi, hpi⟩ := getD_map_decide_true h
    have hcp1_mem : cp1 ∈ pvals := dsfdrThreshold_mem hf1
    have hcp1_le : fdrEst pvals pvals_u numperm cp1 ≤ alpha2 :=
      le_trans (dsfdrThreshold_est_le hf1) h12
    cases hf2 : dsfdrThreshold pvals pvals_u numperm alpha2 with
    | none => exact absurd hcp1_le (dsfdrThreshold_none hf2 cp1 hcp1_mem)
    | some cp2 =>
      have hle : cp1 ≤ cp2 := dsfdrThreshold_max hf2 cp1 hcp1_mem hcp1_le
      rw [getD_map_false pvals _ 0 i hi]
      simp only [decide_eq_true_eq] at hpi ⊢
      exact le_trans hpi hle

/-- Witness for C8 at a concrete input: the single feature is rejected at
`alpha1 = 1/2` and hence also at `alpha2 = 1`. -/
theorem claim_C8_alpha_monotone_witness :
    ((1 : ℚ)/2 ≤ 1 ∧ (dsfdrReject [(1 : ℚ)/2] [[1]] 1 (1/2)).getD 0 false = true) ∧
    (dsfdrReject [(1 : ℚ)/2] [[1]] 1 1).getD 0 false = true :=
  ⟨⟨by norm_num, by decide⟩,
    claim_C8_alpha_monotone [(1 : ℚ)/2] [[1]] 1 (1/2) 1 (by norm_num) 0 (by decide)⟩

/-- C3: with `fdr_method='dsfdr'` (here with the `meandiff` statistic and no
transform), if the threshold search finds no candidate whose estimated FDR
is `≤ alpha`, the call returns normally: the rejection vector is all-`False`
of length equal to the feature count, and the statistic and p-value vectors
are still populated with one entry per feature. -/
theorem claim_C3_no_threshold_returns_all_false (data : List (List ℚ))
    (labels : List ℚ) (alpha : ℚ) (perms : List (List ℚ))
    (hnone : dsfdrThreshold
      (pipePvals (pipeT (meandiff data labels))
        (pipeU2 (pipeT (meandiff data labels)) (meandiffUmat data labels perms)))
      (pipePvalsU (pipeT (meandiff data labels))
        (pipeU2 (pipeT (meandiff data labels)) (meandiffUmat data labels perms)))
      perms.length alpha = none) :
    dsfdr data labels none "meandiff" alpha perms "dsfdr" =
      Except.ok (DsfdrResult.ok (List.replicate data.length false)
        (meandiff data labels)
        (pipePvals (pipeT (meandiff data labels))
          (pipeU2 (pipeT (meandiff data labels)) (meandiffUmat data labels perms)))) ∧
    (List.replicate data.length false).length = data.length ∧
    (meandiff data labels).length = data.length ∧
    (pipePvals (pipeT (meandiff data labels))
      (pipeU2 (pipeT (meandiff data labels)) (meandiffUmat data labels perms))).length
      = data.length := by
  have hd : (if ("dsfdr" : String) = "filterBH" then filterBHrows data labels alpha
      else data) = data := if_neg (by decide)
  refine ⟨?_, by simp, meandiff_length data labels,
    pipePvals_pipeline_length data labels perms⟩
  simp only [dsfdr, transformStage, finishPerm, hd]
  norm_num
  unfold dsfdrReject
  rw [hnone, pipePvals_pipeline_length data labels perms]

set_option maxRecDepth 4000 in
/-- Witness for C3 at a concrete input where the single candidate has FDR
estimate 1 > alpha = 1/10. -/
theorem claim_C3_no_threshold_returns_all_false_witness :
    (dsfdrThreshold
      (pipePvals (pipeT (meandiff [[1, 2]] [0, 1]))
        (pipeU2 (pipeT (meandiff [[1, 2]] [0, 1])) (meandiffUmat [[1, 2]] [0, 1] [[0, 1]])))
      (pipePvalsU (pipeT (meandiff [[1, 2]] [0, 1]))
        (pipeU2 (pipeT (meandiff [[1, 2]] [0, 1])) (meandiffUmat [[1, 2]] [0, 1] [[0, 1]])))
      [[(0 : ℚ), 1]].length (1/10) = none) ∧
    dsfdr [[1, 2]] [0, 1] none "meandiff" (1/10) [[0, 1]] "dsfdr" =
      Except.ok (DsfdrResult.ok (List.replicate ([[(1 : ℚ), 2]]).length false)
        (meandiff [[1, 2]] [0, 1])
        (pipePvals (pipeT (meandiff [[1, 2]] [0, 1]))
          (pipeU2 (pipeT (meandiff [[1, 2]] [0, 1]))
            (meandiffUmat [[1, 2]] [0, 1] [[0, 1]])))) :=
  ⟨by decide,
    (claim_C3_no_threshold_returns_all_false [[1, 2]] [0, 1] (1/10) [[0, 1]]
      (by decide)).1⟩

/-- The removal condition exactly as the claim states it: nonzero-sample
count `k` below `min n0 n1` AND minimum achievable p-value
`(C(n0,k) + C(n1,k)) / C(n0+n1,k)` exceeding `alpha`. -/
def removedFeature (n0 n1 : ℕ) (alpha : ℚ) (row : List ℚ) : Prop :=
  (row.filter (fun x => decide (x ≠ 0))).length < min n0 n1 ∧
  alpha < (((n0.choose ((row.filter (fun x => decide (x ≠ 0))).length)) : ℚ) +
      ((n1.choose ((row.filter (fun x => decide (x ≠ 0))).length)) : ℚ)) /
    (((n0 + n1).choose ((row.filter (fun x => decide (x ≠ 0))).length)) : ℚ)

instance (n0 n1 : ℕ) (alpha : ℚ) (row : List ℚ) :
    Decidable (removedFeature n0 n1 alpha row) := by
  unfold removedFeature
  exact instDecidableAnd

theorem keepFeature_eq_not_removed (n0 n1 : ℕ) (alpha : ℚ) (row : List ℚ) :
    keepFeature n0 n1 alpha row = decide (¬ removedFeature n0 n1 alpha row) := by
  have h : keepFeature n0 n1 alpha row = true ↔ ¬ removedFeature n0 n1 alpha row := by
    unfold keepFeature removedFeature
    by_cases hk : (row.filter (fun x => decide (x ≠ 0))).length < min n0 n1
    · rw [if_pos hk]
      rw [decide_eq_true_eq]
      constructor
      · intro hle hrem
        exact absurd hle (not_le.mpr hrem.2)
      · intro hn
        by_contra hc
        exact hn ⟨hk, not_le.mp hc⟩
    · rw [if_neg hk]
      constructor
      · intro _ hrem
        exact hk hrem.1
      · intro _
        rfl
  by_cases hr : removedFeature n0 n1 alpha row
  · have hkf : keepFeature n0 n1 alpha row = false := by
      rcases Bool.eq_false_or_eq_true (keepFeature n0 n1 alpha row) with ht | hf
      · exact absurd hr (h.mp ht)
      · exact hf
    rw [hkf, decide_eq_false (by simpa using hr)]
  · rw [h.mpr hr, decide_eq_true hr]

/-- C6: with `fdr_method='filterBH'` (here with the `meandiff` statistic and
no transform), every feature whose nonzero count `k` is below `min(n0, n1)`
and whose minimum achievable p-value `(C(n0,k)+C(n1,k))/C(n0+n1,k)` exceeds
`alpha` is removed from the matrix before any statistic computation, and the
returned rejection, statistic and p-value arrays all have exactly the
reduced feature count. -/
theorem claim_C6_filterBH_prefilter (data : List (List ℚ)) (labels : List ℚ)
    (alpha : ℚ) (perms : List (List ℚ)) :
    filterBHrows data labels alpha =
      data.filter (fun row =>
        decide (¬ removedFeature (cntEq labels 0) (cntEq labels 1) alpha row)) ∧
    dsfdr data labels none "meandiff" alpha perms "filterBH" =
      Except.ok (DsfdrResult.ok
        (multipletests_fdr_bh
          (bhPvals (pipeT (meandiff (filterBHrows data labels alpha) labels))
            (pipeU2 (pipeT (meandiff (filterBHrows data labels alpha) labels))
              (meandiffUmat (filterBHrows data labels alpha) labels perms))
            perms.length) alpha)
        (meandiff (filterBHrows data labels alpha) labels)
        (bhPvals (pipeT (meandiff (filterBHrows data labels alpha) labels))
          (pipeU2 (pipeT (meandiff (filterBHrows data labels alpha) labels))
            (meandiffUmat (filterBHrows data labels alpha) labels perms))
          perms.length)) ∧
    (multipletests_fdr_bh
      (bhPvals (pipeT (meandiff (filterBHrows data labels alpha) labels))
        (pipeU2 (pipeT (meandiff (filterBHrows data labels alpha) labels))
          (meandiffUmat (filterBHrows data labels alpha) labels perms))
        perms.length) alpha).length = (filterBHrows data labels alpha).length ∧
    (meandiff (filterBHrows data labels alpha) labels).length
      = (filterBHrows data labels alpha).length ∧
    (bhPvals (pipeT (meandiff (filterBHrows data labels alpha) labels))
      (pipeU2 (pipeT (meandiff (filterBHrows data labels alpha) labels))
        (meandiffUmat (filterBHrows data labels alpha) labels perms))
      perms.length).length = (filterBHrows data labels alpha).length := by
  refine ⟨?_, ?_, ?_, meandiff_length _ labels,
    bhPvals_pipeline_length (filterBHrows data labels alpha) labels perms perms.length⟩
  · unfold filterBHrows
    exact List.filter_congr (fun row _ => keepFeature_eq_not_removed _ _ alpha row)
  · have hd : (if ("filterBH" : String) = "filterBH"
        then filterBHrows data labels alpha else data)
        = filterBHrows data labels alpha := if_pos rfl
    simp only [dsfdr, transformStage, finishPerm, hd]
    norm_num
    intro hbad
    exact absurd hbad (by decide)
  · rw [multipletests_fdr_bh_length,
      bhPvals_pipeline_length (filterBHrows data labels alpha) labels perms perms.length]

/-- Counterexample to C9 as stated: with an unsupported `fdr_method` the
error is NOT raised "immediately, before any computation".  The whole
statistic stage runs first: with `method='mannwhitney'` the statistic
stage's own `IndexError` escapes, so the call never reaches the
`fdr method not supported` check (dsfdr.py line 433), which sits after the
permutation loop.  Had the `fdr_method` name been validated before any
computation, the result would have been the configuration `ValueError`
instead. -/
theorem claim_C9_counterexample :
    dsfdr [[1, 2]] [0, 1] none "mannwhitney" (1/10) [[0, 1]] "bogus" =
      Except.error "IndexError: too many indices for array" ∧
    ("IndexError: too many indices for array" : String) ≠
      "fdr method bogus not supported" := by
  constructor
  · rfl
  · decide

/-- C9 (amended): an unsupported `transform_type` name raises
`transform type ... not supported` before the statistic stage, for every
input and every choice of the other arguments; an unsupported `fdr_method`
name also raises (`fdr method ... not supported`) rather than silently
falling back — but only after the transform, statistic and permutation
stages have completed, not before any computation (a failure inside those
stages preempts it). -/
theorem claim_C9_amended_config_errors :
    (∀ (data : List (List ℚ)) (labels : List ℚ) (method : String) (alpha : ℚ)
      (perms : List (List ℚ)) (fdrm s : String),
      s ≠ "rankdata" → s ≠ "log2data" → s ≠ "binarydata" → s ≠ "normdata" →
      dsfdr data labels (some s) method alpha perms fdrm =
        Except.error ("transform type " ++ s ++ " not supported")) ∧
    (∀ (data : List (List ℚ)) (labels : List ℚ) (alpha : ℚ)
      (perms : List (List ℚ)) (fdrm : String),
      fdrm ≠ "dsfdr" → fdrm ≠ "bhfdr" → fdrm ≠ "filterBH" → fdrm ≠ "byfdr" →
      dsfdr data labels none "meandiff" alpha perms fdrm =
        Except.error ("fdr method " ++ fdrm ++ " not supported")) := by
  constructor
  · intro data labels method alpha perms fdrm s h1 h2 h3 h4
    simp only [dsfdr, transformStage]
    rw [if_neg h1, if_neg h2, if_neg h3, if_neg h4]
  · intro data labels alpha perms fdrm h1 h2 h3 h4
    simp only [dsfdr, transformStage, finishPerm]
    rw [if_neg h3, if_pos trivial, if_neg h1, if_neg (not_or.mpr ⟨h2, h3⟩), if_neg h4]

/-- Witness for C9 (amended) at concrete unsupported names. -/
theorem claim_C9_amended_config_errors_witness :
    (("bogusT" : String) ≠ "rankdata" ∧ ("bogusF" : String) ≠ "dsfdr") ∧
    dsfdr [[1]] [0] (some "bogusT") "meandiff" 0 [] "dsfdr" =
      Except.error ("transform type " ++ "bogusT" ++ " not supported") ∧
    dsfdr [[1]] [0] none "meandiff" 0 [] "bogusF" =
      Except.error ("fdr method " ++ "bogusF" ++ " not supported") :=
  ⟨⟨by decide, by decide⟩,
    claim_C9_amended_config_errors.1 [[1]] [0] "meandiff" 0 [] "dsfdr" "bogusT"
      (by decide) (by decide) (by decide) (by decide),
    claim_C9_amended_config_errors.2 [[1]] [0] 0 [] "bogusF"
      (by decide) (by decide) (by decide) (by decide)⟩

/-- C2: for every feature (observed absolute statistic `tc`, permuted
absolute statistics `urow` of length `numperm`), the reported p-value is the
first entry of the pooled-and-ranked sequence; the pool is `tc :: urow` with
the observed value first, the rank is the minimum-rank of `tc` in the pool
(1 + number of pool entries strictly below `tc`), and the p-value is
`1 - (rank - 1) / (numperm + 1)`. -/
theorem claim_C2_pooled_min_rank_pvalue (tc : ℚ) (urow : List ℚ) :
    (pvalsRow tc urow).headD 0 =
      1 - ((((rankdataMin (tc :: urow)).headD 1 : ℚ) - 1) / ((urow.length : ℚ) + 1)) ∧
    (rankdataMin (tc :: urow)).headD 1 = cntLt (tc :: urow) tc + 1 ∧
    (pvalsRow tc urow).length = urow.length + 1 := by
  have hrank : (rankdataMin (tc :: urow)).headD 1 = cntLt (tc :: urow) tc + 1 := by
    unfold rankdataMin
    rw [List.map_cons, List.headD_cons, rankMin_eq_cntLt]
  refine ⟨?_, hrank, pvalsRow_length tc urow⟩
  rw [pvalsRow_head, hrank]
  push_cast
  ring

/-- C4 (evaluation of the code at the failing input): the `mannwhitney`
statistic stage cannot return the Mann–Whitney U statistic for any feature:
`mannwhitneyU` passes the 1-D pooled sample to the module-level `rankdata`,
which expects a 2-D matrix and raises `IndexError`.  Shown here on a
1-feature, 4-sample matrix with balanced binary labels, both standalone and
through the full `dsfdr` call. -/
theorem claim_C4_mannwhitney_raises :
    mannwhitney [[1, 2, 3, 4]] [0, 0, 1, 1] =
      Except.error "IndexError: too many indices for array" ∧
    dsfdr [[1, 2, 3, 4]] [0, 0, 1, 1] none "mannwhitney" (1/10) [[0, 1, 0, 1]]
        "dsfdr" =
      Except.error "IndexError: too many indices for array" := by
  constructor
  · rfl
  · rfl

/-- Counterexample to C5 as stated: `binarydata` mutates the array passed to
it.  After the call the caller's array holds the binarized values — the
entry 5 has become 1 — so the transform does not operate on an owned copy. -/
theorem claim_C5_counterexample :
    (binarydata [[5]]).2 = [[1]] ∧ (binarydata [[5]]).2 ≠ [[5]] := by
  constructor
  · rfl
  · decide

/-- C5 (amended): all four transforms return a matrix of the same shape, but
only `rankdata` and `normdata` leave the array passed to them unchanged.
`binarydata` leaves the caller's array equal to the returned binarized
matrix (in-place assignment), and `log2data` leaves the caller's array
clipped at 2 (its in-place `data[data < 2] = 2`) while returning the
log-transform of that clipped array.  (`normdata` needs a rectangular
matrix for the shape claim, matching NumPy's 2-D arrays.) -/
theorem claim_C5_amended_transform_shapes :
    (∀ m : List (List ℚ), (∀ row ∈ m, row.length = (m.headD []).length) →
      dims (normdata m).1 = dims m) ∧
    (∀ m : List (List ℚ), (normdata m).2 = m) ∧
    (∀ m : List (List ℚ), dims (binarydata m).1 = dims m) ∧
    (∀ m : List (List ℚ), (binarydata m).2 = (binarydata m).1) ∧
    (∀ m : List (List ℚ), rankdata (NPArr.two m) =
      Except.ok (NPArr.two (m.map scipyRankdataAvg), NPArr.two m) ∧
      dims (m.map scipyRankdataAvg) = dims m) ∧
    (∀ m : List (List ℝ), dims (log2data m).1 = dims m ∧
      dims (log2data m).2 = dims m ∧
      (log2data m).2 = m.map (fun row => row.map (fun x => if x < 2 then 2 else x)) ∧
      (log2data m).1 = (log2data m).2.map (fun row => row.map (fun x => Real.logb 2 x))) := by
  refine ⟨?_, fun m => rfl, ?_, fun m => rfl, ?_, ?_⟩
  · intro m hrect
    unfold normdata dims
    simp only [List.map_map]
    refine List.map_congr_left ?_
    intro row hrow
    have hcs : (columnSums m).length = (m.headD []).length := by
      simp [columnSums]
    simp [List.length_zipWith, hcs, hrect row hrow]
  · intro m
    simp [binarydata, dims]
  · intro m
    refine ⟨rfl, ?_⟩
    simp [dims, scipyRankdataAvg]
  · intro m
    exact ⟨by simp [log2data, dims], by simp [log2data, dims], rfl, rfl⟩

/-- Witness for C5 (amended) at a concrete rectangular matrix. -/
theorem claim_C5_amended_transform_shapes_witness :
    (∀ row ∈ [[(1 : ℚ), 2]], row.length = (([[(1 : ℚ), 2]]).headD []).length) ∧
    dims (normdata [[(1 : ℚ), 2]]).1 = dims [[(1 : ℚ), 2]] :=
  ⟨by decide, claim_C5_amended_transform_shapes.1 [[(1 : ℚ), 2]] (by decide)⟩

/-- C7: for `method='meandiff'`, every entry of the permutation-null matrix
produced by the matrix-multiplication trick (weighting columns `p`, `p2`
with `k1 = 1/n0`, `k2 = 1/n1`) equals the absolute mean difference that the
naive recomputation `|meandiff(data, shuffled_labels)|` yields for the same
shuffled label vector and the same feature.  The hypotheses state what a
shuffle of binary labels guarantees: the shuffled vector is binary, has the
same length and the same 0/1 counts as the original labels, and both groups
are non-empty. -/
theorem claim_C7_meandiff_trick_matches_naive (data : List (List ℚ))
    (labels : List ℚ) (perms : List (List ℚ)) (i c : ℕ)
    (hi : i < data.length) (hc : c < perms.length)
    (hrow : (data.getD i []).length = labels.length)
    (hbin : ∀ l ∈ perms.getD c [], l = 0 ∨ l = 1)
    (hlen : (perms.getD c []).length = labels.length)
    (hn0 : cntEq (perms.getD c []) 0 = cntEq labels 0)
    (hn1 : cntEq (perms.getD c []) 1 = cntEq labels 1)
    (h0 : 0 < cntEq labels 0) (_h1 : 0 < cntEq labels 1) :
    ((meandiffUmat data labels perms).getD i []).getD c 0 =
      |(meandiff data (perms.getD c [])).getD i 0| := by
  have h02 : (data.getD i []).length = (perms.getD c []).length :=
    hrow.trans hlen.symm
  have hk1pos : (0 : ℚ) < 1 / (cntEq labels 0 : ℚ) :=
    one_div_pos.mpr (by exact_mod_cast h0)
  have hL : ((meandiffUmat data labels perms).getD i []).getD c 0 =
      |dot (data.getD i []) (pcol (perms.getD c []) (1 / (cntEq labels 0 : ℚ))) -
        dot (data.getD i [])
          (p2col (pcol (perms.getD c []) (1 / (cntEq labels 0 : ℚ)))
            (1 / (cntEq labels 1 : ℚ)))| := by
    unfold meandiffUmat
    rw [getD_map_of_lt data _ [] [] i hi, getD_map_of_lt perms _ 0 [] c hc]
  have hR : (meandiff data (perms.getD c [])).getD i 0 =
      mean (selCols (data.getD i []) (perms.getD c []) 1) -
        mean (selCols (data.getD i []) (perms.getD c []) 0) := by
    unfold meandiff
    rw [getD_map_of_lt data _ 0 [] i hi]
  rw [hL, hR, dot_pcol,
    dot_p2col (data.getD i []) (perms.getD c []) _ _ hk1pos hbin, abs_sub_comm]
  unfold mean
  rw [selCols_length 0 _ _ h02, selCols_length 1 _ _ h02, hn0, hn1]
  congr 1
  ring

/-- Witness for C7 at a concrete input: one feature `[1, 2]`, labels
`[0, 1]`, one shuffled label vector `[1, 0]`; both sides evaluate to 1. -/
theorem claim_C7_meandiff_trick_matches_naive_witness :
    (∀ l ∈ ([[(1 : ℚ), 0]]).getD 0 [], l = 0 ∨ l = 1) ∧
    ((meandiffUmat [[1, 2]] [0, 1] [[1, 0]]).getD 0 []).getD 0 0 =
      |(meandiff [[1, 2]] (([[(1 : ℚ), 0]]).getD 0 [])).getD 0 0| :=
  ⟨by decide,
    claim_C7_meandiff_trick_matches_naive [[1, 2]] [0, 1] [[1, 0]] 0 0
      (by decide) (by decide) (by decide) (by decide) (by decide) (by decide)
      (by decide) (by decide) (by decide)⟩

end WitnessEvaluation

end Dsfdr
